import Mathlib

/-!
Verification development for the `ion_superpositions` pulse-sequence engine
(`pulse_sequence.py`).

The mutable `PulseSequence` object is embedded as an explicit state record
`St` threaded through each method; the immutable construction data (colour
count, target size, the external pulse-operator provider and state-vector
builder from `pulse_matrices` / `state_specifier`, which are out-of-scope
collaborators) live in a configuration record `Cfg`.  Python `assert`
failures are modelled with `Except String`; every method returns its result
together with the object state after the call, so that a failing assertion
reached after a partial mutation still reports the mutated state.  The
distance cache `self.__dist`, initialised to `float("inf")`, is modelled as
an `EReal` initialised to `⊤`.  Floating-point numbers are modelled as real
numbers, complex matrices as `Matrix (Fin d) (Fin d) ℂ` with `d = 2 * ns`.
-/

open scoped Classical

noncomputable section

namespace IonSuperpositions

/-- Colour of a pulse: carrier, red sideband, blue sideband. -/
inductive Colour
  | c
  | r
  | b
deriving DecidableEq

/-- Internal (electronic) state of the ion: ground or excited. -/
inductive Internal
  | g
  | e
deriving DecidableEq

/-- A state specifier `(motional, internal, phase)` as described in the module
docstring of `pulse_sequence.py`: motional level, internal level (default
ground) and a relative phase as a multiple of pi (default 0). -/
structure StateSpecifier where
  motional : ℕ
  internal : Internal := Internal.g
  phase : ℝ := 0

/-- Complex state vectors of dimension `d = 2 * ns`. -/
abbrev Vec (d : ℕ) := Fin d → ℂ

/-- Complex square matrices of dimension `d = 2 * ns`. -/
abbrev Mat (d : ℕ) := Matrix (Fin d) (Fin d) ℂ

/-- Message of the `__init__` assertion on an empty colour list. -/
def emptyColoursMsg : String := "You must have at least one colour in the sequence!"

/-- Message of the `__update_angles_if_required` length assertion. -/
def anglesLenMsg : String := "There are n colours in the sequence, but I got a different number of angles."

/-- Message of the `__update_phases_if_required` length assertion. -/
def phasesLenMsg : String := "There are k elements of the target, but I got an incompatible number of phases."

/-- Message of the missing-phases assertions in `__calculate_all` and `d_distance`. -/
def phasesRequiredMsg : String := "If you are not in fixed phase mode, you need to specify the phases."

/-- Message of the missing-target assertions in `distance` and `d_distance`. -/
def targetRequiredMsg : String := "You must set the target state to calculate the distance."

/-- Python `max()` applied to an empty sequence raises `ValueError`. -/
def maxEmptyMsg : String := "max() arg is an empty sequence"

/-- Python raises `TypeError` when `None` is used as a slice bound or with `len`. -/
def noneTypeMsg : String := "TypeError: NoneType used where an integer is required"

/-- Construction-time data of a `PulseSequence` of `L` pulses acting on a
`d`-dimensional space (`d = 2 * ns`).

The fields `op`, `d_op`, `buildTarget` and `targetIdx` stand for the external
collaborators, modelled from the spec:
* `op i` / `d_op i` : the unitary matrix of `pm.ColourOperator` number `i` and
  its angle-derivative, as functions of the mutable current angle
  (`pulse_matrices` is an out-of-scope collaborator);
* `buildTarget ps` : `pm.build_state_vector` applied to the target specifier
  list re-phased by `__update_target_phases`, i.e. with component 0 pinned to
  phase 0 and component `i + 1` given phase `ps[i]`;
* `targetIdx j` : `state.idx(self.target[j + 1], self.ns)`, the basis index of
  target component `j + 1`. -/
structure Cfg (d L : ℕ) where
  fixed_phase : Bool
  targetLen : Option ℕ
  op : Fin L → ℝ → Mat d
  d_op : Fin L → ℝ → Mat d
  start : Vec d
  buildTarget : List ℝ → Vec d
  targetIdx : ℕ → Fin d

/-- `self.__n_phases`: one less than the number of target components. -/
def Cfg.nPhases (cfg : Cfg d L) : Option ℕ := cfg.targetLen.map fun k => k - 1

/-- The mutable state of a `PulseSequence` object: cached angle and phase
vectors, the current angle of each `ColourOperator`, the cached propagator,
derivatives, target vector, distance and distance derivatives, and the cached
overlap `self.__tus`. -/
structure St (d L : ℕ) where
  angles : Option (List ℝ)
  phases : Option (List ℝ)
  opAngle : Fin L → ℝ
  u : Mat d
  d_u : Fin L → Mat d
  targetVec : Option (Vec d)
  dist : EReal
  d_dist_angles : Fin L → ℝ
  d_dist_phases : List ℝ
  tus : ℂ

/-- The state built by `__init__`: no cached angles or phases, distance
initialised to `float("inf")`, `self.__tus = 0.0j`.  The initial contents of
the `np.empty` buffers `__u`, `__d_u`, `__d_dist_angles`, `__d_dist_phases`
and the initial angle of each external `ColourOperator` are unspecified, so
they are taken as parameters. -/
def initSt (target0 : Option (Vec d)) (opAngle0 : Fin L → ℝ) (u0 : Mat d)
    (du0 : Fin L → Mat d) (dda0 : Fin L → ℝ) (ddp0 : List ℝ) : St d L :=
  { angles := none
    phases := none
    opAngle := opAngle0
    u := u0
    d_u := du0
    targetVec := target0
    dist := ⊤
    d_dist_angles := dda0
    d_dist_phases := ddp0
    tus := 0 }

/-- Reading the supplied angle list into the per-pulse operator angles
(`self.__lin_ops[i].angle = angles[i]`). -/
def anglesFun (a : List ℝ) (h : a.length = L) : Fin L → ℝ :=
  fun i => a.get (Fin.cast h.symm i)

/-- `__update_angles_if_required`: no-op on `None`, length assertion, value
comparison against the cached angle vector, then store the angles and push
them into every `ColourOperator`. -/
def updateAnglesIfRequired (st : St d L) (angles : Option (List ℝ)) :
    Except String (Bool × St d L) :=
  match angles with
  | none => Except.ok (false, st)
  | some a =>
    if h : a.length = L then
      if st.angles = some a then Except.ok (false, st)
      else Except.ok (true, { st with angles := some a, opAngle := anglesFun a h })
    else Except.error anglesLenMsg

/-- The pure decision core of `__update_phases_if_required`: given the cached
phase vector and the supplied argument, decide whether an update happens and,
if so, compute the phase vector that will be stored (`some ps`), or fail on
the length assertion.  A supplied vector of full target length has its first
entry subtracted from the remaining ones and is then truncated. -/
def phasesStep (cfg : Cfg d L) (old : Option (List ℝ)) (phases : Option (List ℝ)) :
    Except String (Option (List ℝ)) :=
  if cfg.fixed_phase then Except.ok none
  else
    match phases with
    | none => Except.ok none
    | some p =>
      if old = some p then Except.ok none
      else
        match cfg.targetLen with
        | none => Except.error noneTypeMsg
        | some k =>
          if (0 : ℤ) ≤ (k : ℤ) - (p.length : ℤ) ∧ (k : ℤ) - (p.length : ℤ) ≤ 1 then
            Except.ok (some (if (p.length : ℤ) = (k : ℤ) - 1 then p
                             else (p.drop 1).map fun x => x - p.headI))
          else Except.error phasesLenMsg

/-- `__update_phases_if_required` followed, on an update, by
`__update_target_phases`: store the new phase vector and rebuild the target
vector through the external `build_state_vector`. -/
def updatePhasesIfRequired (cfg : Cfg d L) (st : St d L) (phases : Option (List ℝ)) :
    Except String (Bool × St d L) :=
  match phasesStep cfg st.phases phases with
  | Except.error e => Except.error e
  | Except.ok none => Except.ok (false, st)
  | Except.ok (some ps) =>
    Except.ok (true, { st with phases := some ps, targetVec := some (cfg.buildTarget ps) })

/-- Guarded lookup `self.__lin_ops[i].op` for a natural index, identity out of
range (only indices below `L` are ever used). -/
def opNat (ops : Fin L → Mat d) (i : ℕ) : Mat d :=
  if h : i < L then ops ⟨i, h⟩ else 1

/-- `self.__partials_ltr`: `partials_ltr[0] = Id`,
`partials_ltr[i+1] = partials_ltr[i] @ ops[i]`. -/
def partialsLtr (ops : Fin L → Mat d) : ℕ → Mat d
  | 0 => 1
  | i + 1 => partialsLtr ops i * opNat ops i

/-- `self.__partials_rtl`: `partials_rtl[0] = Id`,
`partials_rtl[i+1] = ops[L-1-i] @ partials_rtl[i]`. -/
def partialsRtl (ops : Fin L → Mat d) : ℕ → Mat d
  | 0 => 1
  | i + 1 => opNat ops (L - 1 - i) * partialsRtl ops i

/-- The operator matrix of each pulse at its current angle. -/
def opsOf (cfg : Cfg d L) (st : St d L) : Fin L → Mat d :=
  fun i => cfg.op i (st.opAngle i)

/-- The derivative matrix of each pulse at its current angle. -/
def dOpsOf (cfg : Cfg d L) (st : St d L) : Fin L → Mat d :=
  fun i => cfg.d_op i (st.opAngle i)

/-- `__update_propagator_and_derivatives`:
`u = partials_ltr[L-1] @ ops[L-1]` and
`d_u[i] = partials_ltr[i] @ d_ops[i] @ partials_rtl[L-1-i]`. -/
def updatePropagatorAndDerivatives (cfg : Cfg d L) (st : St d L) : St d L :=
  { st with
    u := partialsLtr (opsOf cfg st) (L - 1) * opNat (opsOf cfg st) (L - 1)
    d_u := fun i =>
      partialsLtr (opsOf cfg st) i.val * dOpsOf cfg st i *
        partialsRtl (opsOf cfg st) (L - 1 - i.val) }

/-- The Hermitian inner product `∑ i, conj (x i) * y i` on `Vec d`. -/
def cinner (x y : Vec d) : ℂ := ∑ i, (starRingEnd ℂ) (x i) * y i

/-- Modelled from the spec: the external `pm.inner_product t U s` is the
matrix element `⟨t|U|s⟩`. -/
def inner_product (t : Vec d) (M : Mat d) (s : Vec d) : ℂ :=
  cinner t (M.mulVec s)

/-- `__update_distance`: cache `tus = ⟨target|U|start⟩` and
`dist = 1 - Re (tus * conj tus)`. -/
def updateDistance (cfg : Cfg d L) (t : Vec d) (st : St d L) : St d L :=
  let tus := inner_product t st.u cfg.start
  { st with
    tus := tus
    dist := (((1 : ℝ) - (tus * (starRingEnd ℂ) tus).re : ℝ) : EReal) }

/-- `__update_distance_angle_derivatives`:
`d_dist_angles[i] = -2 * Re (conj tus * ⟨target|d_u[i]|start⟩)`. -/
def updateDistanceAngleDerivatives (cfg : Cfg d L) (t : Vec d) (st : St d L) : St d L :=
  { st with
    d_dist_angles := fun i =>
      -2 * ((starRingEnd ℂ) st.tus * inner_product t (st.d_u i) cfg.start).re }

/-- `__update_distance_phase_derivatives`: for each stored phase,
`d_dist_phases[i] = (2 / sqrt k) *
  Re (exp (I * pi * (0.5 - phase_i)) * (U @ start)[idx(target[i+1])] * conj tus)`. -/
def updateDistancePhaseDerivatives (cfg : Cfg d L) (st : St d L) : St d L :=
  let pref : ℝ := 2 / Real.sqrt ((cfg.targetLen.getD 0 : ℕ) : ℝ)
  let u_start := st.u.mulVec cfg.start
  { st with
    d_dist_phases := (st.phases.getD []).enum.map fun ip =>
      pref * (Complex.exp (Complex.I * (Real.pi : ℂ) * (((1 : ℂ) / 2) - (ip.2 : ℂ))) *
        u_start (cfg.targetIdx ip.1) * (starRingEnd ℂ) st.tus).re }

/-- `__calculate_all`: the missing-phases assertion, both cache updates, early
return when nothing changed, then the conditional propagator, distance and
derivative updates. -/
def calculateAll (cfg : Cfg d L) (st : St d L) (angles phases : Option (List ℝ)) :
    Except String Unit × St d L :=
  if st.targetVec.isNone || cfg.fixed_phase || phases.isSome then
    match updateAnglesIfRequired st angles with
    | Except.error e => (Except.error e, st)
    | Except.ok (ua, st₁) =>
      match updatePhasesIfRequired cfg st₁ phases with
      | Except.error e => (Except.error e, st₁)
      | Except.ok (up, st₂) =>
        if ua || up then
          let st₃ := if ua then updatePropagatorAndDerivatives cfg st₂ else st₂
          match st₃.targetVec with
          | none => (Except.ok (), st₃)
          | some t =>
            let st₄ := updateDistance cfg t st₃
            let st₅ := if ua then updateDistanceAngleDerivatives cfg t st₄ else st₄
            let st₆ := if up then updateDistancePhaseDerivatives cfg st₅ else st₅
            (Except.ok (), st₆)
        else (Except.ok (), st₂)
  else (Except.error phasesRequiredMsg, st)

/-- `__calculate_propagator`: update angles, and on a change recompute the
propagator and its derivatives. -/
def calculatePropagator (cfg : Cfg d L) (st : St d L) (angles : Option (List ℝ)) :
    Except String (St d L) :=
  match updateAnglesIfRequired st angles with
  | Except.error e => Except.error e
  | Except.ok (ua, st₁) =>
    Except.ok (if ua then updatePropagatorAndDerivatives cfg st₁ else st₁)

/-- The method `U`: recompute if needed and return a copy of the cached
propagator. -/
def U (cfg : Cfg d L) (st : St d L) (angles : Option (List ℝ)) :
    Except String (Mat d) × St d L :=
  match calculatePropagator cfg st angles with
  | Except.error e => (Except.error e, st)
  | Except.ok st₁ => (Except.ok st₁.u, st₁)

/-- The method `d_U`: recompute if needed and return a copy of the cached
propagator derivatives. -/
def d_U (cfg : Cfg d L) (st : St d L) (angles : Option (List ℝ)) :
    Except String (Fin L → Mat d) × St d L :=
  match calculatePropagator cfg st angles with
  | Except.error e => (Except.error e, st)
  | Except.ok st₁ => (Except.ok st₁.d_u, st₁)

/-- The method `distance`: missing-target assertion, `__calculate_all`, then
return the cached `self.__dist`. -/
def distance (cfg : Cfg d L) (st : St d L) (angles phases : Option (List ℝ)) :
    Except String EReal × St d L :=
  if st.targetVec.isSome then
    match calculateAll cfg st angles phases with
    | (Except.error e, st₁) => (Except.error e, st₁)
    | (Except.ok _, st₁) => (Except.ok st₁.dist, st₁)
  else (Except.error targetRequiredMsg, st)

/-- The method `d_distance`: missing-target and missing-phases assertions,
`__calculate_all`, then the angle derivatives alone (fixed phase) or the pair
of angle and phase derivatives. -/
def d_distance (cfg : Cfg d L) (st : St d L) (angles phases : Option (List ℝ)) :
    Except String ((Fin L → ℝ) × Option (List ℝ)) × St d L :=
  if st.targetVec.isSome then
    if cfg.fixed_phase || phases.isSome then
      match calculateAll cfg st angles phases with
      | (Except.error e, st₁) => (Except.error e, st₁)
      | (Except.ok _, st₁) =>
        if cfg.fixed_phase then (Except.ok (st₁.d_dist_angles, none), st₁)
        else (Except.ok (st₁.d_dist_angles, some st₁.d_dist_phases), st₁)
    else (Except.error phasesRequiredMsg, st)
  else (Except.error targetRequiredMsg, st)

/-- The method `split_result`: in fixed-phase mode return the solution vector
and the single zero phase; otherwise split off the last `n_phases` entries and
prepend the pinned zero phase (`np.insert(..., 0, 0.0)`). -/
def split_result (cfg : Cfg d L) (x : List ℝ) : Except String (List ℝ × List ℝ) :=
  if cfg.fixed_phase then Except.ok (x, [0])
  else
    match cfg.nPhases with
    | none => Except.error noneTypeMsg
    | some m => Except.ok (x.take (x.length - m), 0 :: x.drop (x.length - m))

/-- The state column computed by `trace`: `out[0] = start`,
`out[i+1] = ops[L-1-i] @ out[i]` (the last-listed pulse acts first). -/
def traceStates (ops : Fin L → Mat d) (s : Vec d) : ℕ → Vec d
  | 0 => s
  | i + 1 => (opNat ops (L - 1 - i)).mulVec (traceStates ops s i)

/-- The method `trace` with `fmt=False`: update angles if supplied, then
return the evolved state after each pulse. -/
def trace (cfg : Cfg d L) (st : St d L) (angles : Option (List ℝ)) :
    Except String ((ℕ → Vec d) × St d L) :=
  match updateAnglesIfRequired st angles with
  | Except.error e => Except.error e
  | Except.ok (_, st₁) => Except.ok (traceStates (opsOf cfg st₁) cfg.start, st₁)

/-- The scalar data computed by `__init__` (the matrices and vectors
themselves come from the external collaborators): the truncation size, the
pulse count, `self.__n_phases` and the effective `self.fixed_phase` flag. -/
structure MkResult where
  ns : ℕ
  len : ℕ
  nPhases : Option ℕ
  fixed_phase : Bool

/-- Python `max` over a list: fails on an empty list. -/
def listMax (l : List ℕ) : Except String ℕ :=
  match l with
  | [] => Except.error maxEmptyMsg
  | x :: xs => Except.ok (xs.foldl max x)

/-- `__init__`: the non-empty-colours assertion, the default start state
`[(0, g, 0.0)]`, `n_phases = len(target) - 1`, the truncation size
`ns = max(motional_states_needed(colours), max(motional(start)) + 1,
max(motional(target)) + 1 or 0)` and the effective fixed-phase flag
`fixed_phase or n_phases == 0`.  The external `pm.motional_states_needed` is
a parameter. -/
def mk (colours : List Colour) (target : Option (List StateSpecifier)) (fixed_phase : Bool)
    (start : Option (List StateSpecifier)) (motionalStatesNeeded : List Colour → ℕ) :
    Except String MkResult :=
  if colours.length > 0 then
    match listMax ((start.getD [{ motional := 0 }]).map StateSpecifier.motional) with
    | Except.error e => Except.error e
    | Except.ok maxStart =>
      match target with
      | some tl =>
        match listMax (tl.map StateSpecifier.motional) with
        | Except.error e => Except.error e
        | Except.ok maxTarget =>
          Except.ok
            { ns := max (max (motionalStatesNeeded colours) (maxStart + 1)) (maxTarget + 1)
              len := colours.length
              nPhases := target.map fun t => t.length - 1
              fixed_phase := fixed_phase || (target.map fun t => t.length - 1) == some 0 }
      | none =>
        Except.ok
          { ns := max (max (motionalStatesNeeded colours) (maxStart + 1)) 0
            len := colours.length
            nPhases := target.map fun t => t.length - 1
            fixed_phase := fixed_phase || (target.map fun t => t.length - 1) == some 0 }
  else Except.error emptyColoursMsg

/-! ## Projection lemmas for the state updates -/

@[simp]
theorem updateProp_angles (cfg : Cfg d L) (s : St d L) :
    (updatePropagatorAndDerivatives cfg s).angles = s.angles := rfl

@[simp]
theorem updateProp_phases (cfg : Cfg d L) (s : St d L) :
    (updatePropagatorAndDerivatives cfg s).phases = s.phases := rfl

@[simp]
theorem updateProp_opAngle (cfg : Cfg d L) (s : St d L) :
    (updatePropagatorAndDerivatives cfg s).opAngle = s.opAngle := rfl

@[simp]
theorem updateProp_targetVec (cfg : Cfg d L) (s : St d L) :
    (updatePropagatorAndDerivatives cfg s).targetVec = s.targetVec := rfl

@[simp]
theorem updateProp_dist (cfg : Cfg d L) (s : St d L) :
    (updatePropagatorAndDerivatives cfg s).dist = s.dist := rfl

@[simp]
theorem updateProp_u (cfg : Cfg d L) (s : St d L) :
    (updatePropagatorAndDerivatives cfg s).u =
      partialsLtr (opsOf cfg s) (L - 1) * opNat (opsOf cfg s) (L - 1) := rfl

@[simp]
theorem updateDistance_angles (cfg : Cfg d L) (t : Vec d) (s : St d L) :
    (updateDistance cfg t s).angles = s.angles := rfl

@[simp]
theorem updateDistance_phases (cfg : Cfg d L) (t : Vec d) (s : St d L) :
    (updateDistance cfg t s).phases = s.phases := rfl

@[simp]
theorem updateDistance_targetVec (cfg : Cfg d L) (t : Vec d) (s : St d L) :
    (updateDistance cfg t s).targetVec = s.targetVec := rfl

@[simp]
theorem updateDistance_u (cfg : Cfg d L) (t : Vec d) (s : St d L) :
    (updateDistance cfg t s).u = s.u := rfl

@[simp]
theorem updateDistance_dist (cfg : Cfg d L) (t : Vec d) (s : St d L) :
    (updateDistance cfg t s).dist =
      (((1 : ℝ) - (inner_product t s.u cfg.start *
        (starRingEnd ℂ) (inner_product t s.u cfg.start)).re : ℝ) : EReal) := rfl

@[simp]
theorem updateDistAngleDerivs_angles (cfg : Cfg d L) (t : Vec d) (s : St d L) :
    (updateDistanceAngleDerivatives cfg t s).angles = s.angles := rfl

@[simp]
theorem updateDistAngleDerivs_phases (cfg : Cfg d L) (t : Vec d) (s : St d L) :
    (updateDistanceAngleDerivatives cfg t s).phases = s.phases := rfl

@[simp]
theorem updateDistAngleDerivs_targetVec (cfg : Cfg d L) (t : Vec d) (s : St d L) :
    (updateDistanceAngleDerivatives cfg t s).targetVec = s.targetVec := rfl

@[simp]
theorem updateDistAngleDerivs_u (cfg : Cfg d L) (t : Vec d) (s : St d L) :
    (updateDistanceAngleDerivatives cfg t s).u = s.u := rfl

@[simp]
theorem updateDistAngleDerivs_dist (cfg : Cfg d L) (t : Vec d) (s : St d L) :
    (updateDistanceAngleDerivatives cfg t s).dist = s.dist := rfl

@[simp]
theorem updateDistPhaseDerivs_angles (cfg : Cfg d L) (s : St d L) :
    (updateDistancePhaseDerivatives cfg s).angles = s.angles := rfl

@[simp]
theorem updateDistPhaseDerivs_phases (cfg : Cfg d L) (s : St d L) :
    (updateDistancePhaseDerivatives cfg s).phases = s.phases := rfl

@[simp]
theorem updateDistPhaseDerivs_targetVec (cfg : Cfg d L) (s : St d L) :
    (updateDistancePhaseDerivatives cfg s).targetVec = s.targetVec := rfl

@[simp]
theorem updateDistPhaseDerivs_u (cfg : Cfg d L) (s : St d L) :
    (updateDistancePhaseDerivatives cfg s).u = s.u := rfl

@[simp]
theorem updateDistPhaseDerivs_dist (cfg : Cfg d L) (s : St d L) :
    (updateDistancePhaseDerivatives cfg s).dist = s.dist := rfl

/-! ## Behaviour of the cache-update helpers -/

theorem updateAngles_none (st : St d L) :
    updateAnglesIfRequired st none = Except.ok (false, st) := rfl

theorem updateAngles_cached (st : St d L) (a : List ℝ) (h : a.length = L)
    (hc : st.angles = some a) :
    updateAnglesIfRequired st (some a) = Except.ok (false, st) := by
  simp only [updateAnglesIfRequired]
  rw [dif_pos h, if_pos hc]

theorem updateAngles_update (st : St d L) (a : List ℝ) (h : a.length = L)
    (hc : st.angles ≠ some a) :
    updateAnglesIfRequired st (some a) =
      Except.ok (true, { st with angles := some a, opAngle := anglesFun a h }) := by
  simp only [updateAnglesIfRequired]
  rw [dif_pos h, if_neg hc]

theorem updateAngles_badLength (st : St d L) (a : List ℝ) (h : a.length ≠ L) :
    updateAnglesIfRequired st (some a) = Except.error anglesLenMsg := by
  simp only [updateAnglesIfRequired]
  rw [dif_neg h]

theorem updateAngles_error (st : St d L) (angles : Option (List ℝ)) (e : String)
    (h : updateAnglesIfRequired st angles = Except.error e) : e = anglesLenMsg := by
  match angles with
  | none => simp [updateAngles_none] at h
  | some a =>
    by_cases hl : a.length = L
    · by_cases hc : st.angles = some a
      · rw [updateAngles_cached st a hl hc] at h
        exact absurd h (by simp)
      · rw [updateAngles_update st a hl hc] at h
        exact absurd h (by simp)
    · rw [updateAngles_badLength st a hl] at h
      exact (Except.error.injEq _ _).mp h.symm

theorem phasesStep_fixed (cfg : Cfg d L) (old p : Option (List ℝ))
    (hfix : cfg.fixed_phase = true) : phasesStep cfg old p = Except.ok none := by
  simp [phasesStep, hfix]

theorem updatePhases_fixed (cfg : Cfg d L) (st : St d L) (p : Option (List ℝ))
    (hfix : cfg.fixed_phase = true) :
    updatePhasesIfRequired cfg st p = Except.ok (false, st) := by
  simp [updatePhasesIfRequired, phasesStep_fixed cfg st.phases p hfix]

theorem phasesStep_none (cfg : Cfg d L) (old : Option (List ℝ)) :
    phasesStep cfg old none = Except.ok none := by
  by_cases hfix : cfg.fixed_phase = true
  · exact phasesStep_fixed cfg old none hfix
  · simp [phasesStep, hfix]

theorem updatePhases_none (cfg : Cfg d L) (st : St d L) :
    updatePhasesIfRequired cfg st none = Except.ok (false, st) := by
  simp [updatePhasesIfRequired, phasesStep_none]

theorem updatePhases_error (cfg : Cfg d L) (st : St d L) (phases : Option (List ℝ))
    (e : String) (h : updatePhasesIfRequired cfg st phases = Except.error e) :
    e = phasesLenMsg ∨ e = noneTypeMsg := by
  have h' : phasesStep cfg st.phases phases = Except.error e := by
    by_contra hne
    rcases hps : phasesStep cfg st.phases phases with e' | v
    · rw [updatePhasesIfRequired, hps] at h
      cases h
      exact hne hps
    · rcases v with _ | ps <;> rw [updatePhasesIfRequired, hps] at h <;> cases h
  rw [phasesStep.eq_def] at h'
  repeat' split at h'
  all_goals try cases h'
  all_goals first
    | exact Or.inl rfl
    | exact Or.inr rfl

/-- On a fixed-phase instance whose cached angle vector already equals the
supplied one, `distance` is a complete no-op: it returns the cached
`self.__dist` and leaves the state untouched. -/
theorem distance_noop (cfg : Cfg d L) (st : St d L) (t0 : Vec d) (a : List ℝ)
    (hfix : cfg.fixed_phase = true) (ht : st.targetVec = some t0)
    (h : a.length = L) (hc : st.angles = some a) :
    distance cfg st (some a) none = (Except.ok st.dist, st) := by
  have e2 := updateAngles_cached st a h hc
  have e3 := updatePhases_fixed cfg st none hfix
  simp [distance, calculateAll, ht, hfix, e2, e3]

/-! ## Concrete instances used by the witnesses -/

/-- A concrete one-pulse, one-dimensional configuration: fixed phase, a
one-component target, identity pulse operator. -/
def cfgW : Cfg 1 1 :=
  { fixed_phase := true
    targetLen := some 1
    op := fun _ _ => 1
    d_op := fun _ _ => 0
    start := fun _ => 1
    buildTarget := fun _ _ => 1
    targetIdx := fun _ => 0 }

/-- The freshly-constructed state paired with `cfgW`. -/
def stW : St 1 1 :=
  initSt (some fun _ => 1) (fun _ => 0) 1 (fun _ => 0) (fun _ => 0) []

/-! ## Claim theorems: memoization behaviour -/

/-- C4: calling `U` twice in succession with the same angle vector returns
equal matrices and the second call performs no recomputation: the whole
object state after the second call (cached propagator, cached derivatives,
per-pulse operator angles included) is exactly the state after the first
call, and the returned matrix is the same. -/
theorem U_memoized (cfg : Cfg d L) (st : St d L) (a : List ℝ) (h : a.length = L) :
    U cfg (U cfg st (some a)).2 (some a) = U cfg st (some a) := by
  by_cases hc : st.angles = some a
  · simp [U, calculatePropagator, updateAngles_cached st a h hc]
  · have e1 := updateAngles_update st a h hc
    have e2 := updateAngles_cached
      (updatePropagatorAndDerivatives cfg { st with angles := some a, opAngle := anglesFun a h })
      a h rfl
    simp [U, calculatePropagator, e1, e2]

/-- Witness for `U_memoized` at a concrete input. -/
theorem U_memoized_witness :
    ([(0 : ℝ)].length = 1) ∧
      U cfgW (U cfgW stW (some [0])).2 (some [0]) = U cfgW stW (some [0]) :=
  ⟨rfl, U_memoized cfgW stW [0] rfl⟩

/-- C3: on a fresh fixed-phase instance with a configured target, calling `U`
with angles `a` and then `distance` with an angle vector equal in value to
`a` returns the initial sentinel `+∞` (the distance is never computed,
because neither the angles nor the phases register as changed), and in
particular not the real number `1 - |⟨target|U|start⟩|²`. -/
theorem distance_returns_sentinel (cfg : Cfg d L) (t0 : Vec d) (opA : Fin L → ℝ)
    (u0 : Mat d) (du0 : Fin L → Mat d) (dda0 : Fin L → ℝ) (ddp0 : List ℝ)
    (a : List ℝ) (hfix : cfg.fixed_phase = true) (h : a.length = L) :
    (distance cfg (U cfg (initSt (some t0) opA u0 du0 dda0 ddp0) (some a)).2
        (some a) none).1 = Except.ok (⊤ : EReal) ∧
      ∀ r : ℝ, (distance cfg (U cfg (initSt (some t0) opA u0 du0 dda0 ddp0) (some a)).2
        (some a) none).1 ≠ Except.ok ((r : ℝ) : EReal) := by
  have hc : (initSt (some t0) opA u0 du0 dda0 ddp0 : St d L).angles ≠ some a := by
    simp [initSt]
  have e1 := updateAngles_update (initSt (some t0) opA u0 du0 dda0 ddp0) a h hc
  have hU : (U cfg (initSt (some t0) opA u0 du0 dda0 ddp0) (some a)).2 =
      updatePropagatorAndDerivatives cfg
        { initSt (some t0) opA u0 du0 dda0 ddp0 with
          angles := some a, opAngle := anglesFun a h } := by
    simp [U, calculatePropagator, e1]
  rw [hU]
  have hnoop := distance_noop cfg
    (updatePropagatorAndDerivatives cfg
      { initSt (some t0) opA u0 du0 dda0 ddp0 with
        angles := some a, opAngle := anglesFun a h }) t0 a hfix rfl h rfl
  have hdist : (distance cfg
      (updatePropagatorAndDerivatives cfg
        { initSt (some t0) opA u0 du0 dda0 ddp0 with
          angles := some a, opAngle := anglesFun a h }) (some a) none).1 =
      Except.ok (⊤ : EReal) := by
    rw [hnoop]
    rfl
  refine ⟨hdist, ?_⟩
  intro r heq
  rw [hdist] at heq
  have h2 : (⊤ : EReal) = ((r : ℝ) : EReal) := by
    simpa using heq
  exact EReal.coe_ne_top r h2.symm

/-- Witness for `distance_returns_sentinel` at a concrete input. -/
theorem distance_returns_sentinel_witness :
    (cfgW.fixed_phase = true ∧ [(0 : ℝ)].length = 1) ∧
      (distance cfgW (U cfgW stW (some [0])).2 (some [0]) none).1 =
        Except.ok (⊤ : EReal) :=
  ⟨⟨rfl, rfl⟩,
    (distance_returns_sentinel cfgW (fun _ => 1) (fun _ => 0) 1 (fun _ => 0)
      (fun _ => 0) [] [0] rfl rfl).1⟩

/-- C5: in fixed-phase mode the distance does not depend on the phase
argument: with a configured target and a length-`L` angle vector, two
`distance` calls with arbitrary (possibly omitted) phase arguments return the
same value and produce the same final state. -/
theorem distance_fixed_phase_invariant (cfg : Cfg d L) (st : St d L) (t0 : Vec d)
    (a : List ℝ) (p₁ p₂ : Option (List ℝ)) (hfix : cfg.fixed_phase = true)
    (ht : st.targetVec = some t0) (h : a.length = L) :
    distance cfg st (some a) p₁ = distance cfg st (some a) p₂ := by
  have upf : ∀ (s : St d L) (q : Option (List ℝ)),
      updatePhasesIfRequired cfg s q = Except.ok (false, s) :=
    fun s q => updatePhases_fixed cfg s q hfix
  simp only [distance, calculateAll, hfix, upf, Bool.or_true, Bool.true_or,
    Bool.or_false, if_true]

/-- Witness for `distance_fixed_phase_invariant` at a concrete input. -/
theorem distance_fixed_phase_invariant_witness :
    (cfgW.fixed_phase = true ∧ stW.targetVec = some (fun _ => 1) ∧
        [(0 : ℝ)].length = 1) ∧
      distance cfgW stW (some [0]) (some [1]) = distance cfgW stW (some [0]) none :=
  ⟨⟨rfl, rfl, rfl⟩,
    distance_fixed_phase_invariant cfgW stW (fun _ => 1) [0] (some [1]) none rfl rfl rfl⟩

/-! ## Claim theorems: precondition errors -/

/-- Any outcome of `__calculate_all` whose phases assertion passes is either a
success or one of the two length/type errors raised by the cache updates. -/
theorem calculateAll_classify (cfg : Cfg d L) (st : St d L)
    (angles phases : Option (List ℝ))
    (hcond : (st.targetVec.isNone || cfg.fixed_phase || phases.isSome) = true) :
    (calculateAll cfg st angles phases).1 = Except.ok () ∨
      (∃ e, (calculateAll cfg st angles phases).1 = Except.error e ∧
        (e = anglesLenMsg ∨ e = phasesLenMsg ∨ e = noneTypeMsg)) := by
  rcases hA : updateAnglesIfRequired st angles with e | ⟨ua, st₁⟩
  · right
    refine ⟨e, ?_, Or.inl (updateAngles_error st angles e hA)⟩
    simp [calculateAll, hcond, hA]
  · rcases hP : updatePhasesIfRequired cfg st₁ phases with e | ⟨up, st₂⟩
    · right
      refine ⟨e, ?_, ?_⟩
      · simp [calculateAll, hcond, hA, hP]
      · rcases updatePhases_error cfg st₁ phases e hP with h1 | h1
        · exact Or.inr (Or.inl h1)
        · exact Or.inr (Or.inr h1)
    · left
      by_cases hu : (ua || up) = true
      · rcases h3 : (if ua = true then updatePropagatorAndDerivatives cfg st₂ else st₂).targetVec
          with _ | t
        · simp [calculateAll, hcond, hA, hP, hu, h3]
        · simp [calculateAll, hcond, hA, hP, hu, h3]
      · simp [calculateAll, hcond, hA, hP, hu]

/-- C6: `distance` fails with the missing-target assertion whenever no target
is configured, and with the missing-phases assertion whenever the sequence is
in free-phase mode and the phases argument is omitted, in both cases leaving
the state unchanged; with a target configured and phases supplied where
required, `distance` never fails on either of these two grounds (only the
length assertions of the cache updates can fire). -/
theorem distance_precondition_errors (cfg : Cfg d L) (st : St d L)
    (angles phases : Option (List ℝ)) :
    (st.targetVec = none →
      distance cfg st angles phases = (Except.error targetRequiredMsg, st)) ∧
    (∀ t0 : Vec d, st.targetVec = some t0 → cfg.fixed_phase = false →
      distance cfg st angles none = (Except.error phasesRequiredMsg, st)) ∧
    (∀ t0 : Vec d, st.targetVec = some t0 →
      (cfg.fixed_phase = true ∨ phases.isSome = true) →
      (distance cfg st angles phases).1 ≠ Except.error targetRequiredMsg ∧
      (distance cfg st angles phases).1 ≠ Except.error phasesRequiredMsg) := by
  refine ⟨?_, ?_, ?_⟩
  · intro h0
    simp [distance, h0]
  · intro t0 ht hfix
    simp [distance, calculateAll, ht, hfix]
  · intro t0 ht hor
    have hcond : (st.targetVec.isNone || cfg.fixed_phase || phases.isSome) = true := by
      rcases hor with h1 | h1 <;> simp [h1]
    rcases hca : calculateAll cfg st angles phases with ⟨r, stF⟩
    rcases calculateAll_classify cfg st angles phases hcond with hok | ⟨e, herr, he⟩
    · rw [hca] at hok
      simp only at hok
      constructor <;> simp [distance, ht, hca, hok]
    · rw [hca] at herr
      simp only at herr
      have h1 : (distance cfg st angles phases).1 = Except.error e := by
        simp [distance, ht, hca, herr]
      rw [h1]
      rcases he with he | he | he <;> rw [he] <;>
        refine ⟨?_, ?_⟩ <;> intro hbad <;>
        simp [anglesLenMsg, phasesLenMsg, noneTypeMsg, targetRequiredMsg,
          phasesRequiredMsg] at hbad

/-- Witness for `distance_precondition_errors` at a concrete input. -/
theorem distance_precondition_errors_witness :
    (stW.targetVec = some (fun _ => 1) ∧ cfgW.fixed_phase = true) ∧
      (distance cfgW stW (some [0]) none).1 ≠ Except.error targetRequiredMsg ∧
      (distance cfgW stW (some [0]) none).1 ≠ Except.error phasesRequiredMsg :=
  ⟨⟨rfl, rfl⟩,
    (distance_precondition_errors cfgW stW (some [0]) none).2.2
      (fun _ => 1) rfl (Or.inl rfl)⟩

/-! ## Claim theorems: result splitting and construction -/

/-- A concrete free-phase configuration with a two-component target. -/
def cfgF : Cfg 1 1 :=
  { fixed_phase := false
    targetLen := some 2
    op := fun _ _ => 1
    d_op := fun _ _ => 0
    start := fun _ => 1
    buildTarget := fun _ _ => 1
    targetIdx := fun _ => 0 }

/-- The freshly-constructed state paired with `cfgF`. -/
def stF : St 1 1 :=
  initSt (some fun _ => 1) (fun _ => 0) 1 (fun _ => 0) (fun _ => 0) []

/-- C7: `split_result` returns the phase vector `[0.0]` in fixed-phase mode
regardless of the solution vector; in free-phase mode, for a target of
`k ≥ 2` components and a solution vector of the optimizer layout length
`L + (k - 1)`, it returns the first `L` entries as the angles and the
remaining `k - 1` entries with the pinned zero phase prepended. -/
theorem split_result_spec (cfg : Cfg d L) (x : List ℝ) (k : ℕ) :
    (cfg.fixed_phase = true → split_result cfg x = Except.ok (x, [0])) ∧
    (cfg.fixed_phase = false → cfg.targetLen = some k → 2 ≤ k →
      x.length = L + (k - 1) →
      split_result cfg x = Except.ok (x.take L, 0 :: x.drop L)) := by
  constructor
  · intro hfix
    simp [split_result, hfix]
  · intro hfix hk hk2 hlen
    have hnp : cfg.nPhases = some (k - 1) := by simp [Cfg.nPhases, hk]
    have harith : x.length - (k - 1) = L := by omega
    simp [split_result, hfix, hnp, harith]

/-- Witness for `split_result_spec` at concrete inputs. -/
theorem split_result_spec_witness :
    (cfgW.fixed_phase = true ∧ cfgF.fixed_phase = false ∧ cfgF.targetLen = some 2 ∧
        2 ≤ 2 ∧ [(1 : ℝ), 2].length = 1 + (2 - 1)) ∧
      split_result cfgW [1, 2] = Except.ok ([1, 2], [0]) ∧
      split_result cfgF [1, 2] = Except.ok ([(1 : ℝ), 2].take 1, 0 :: [(1 : ℝ), 2].drop 1) :=
  ⟨⟨rfl, rfl, rfl, by decide, rfl⟩,
    (split_result_spec cfgW [1, 2] 2).1 rfl,
    (split_result_spec cfgF [1, 2] 2).2 rfl rfl (by decide) rfl⟩

/-- `listMax` only ever fails with the Python empty-`max` message. -/
theorem listMax_error (l : List ℕ) (e : String) (h : listMax l = Except.error e) :
    e = maxEmptyMsg := by
  cases l with
  | nil =>
    rw [listMax] at h
    cases h
    rfl
  | cons x xs => cases h

/-- C8: construction with an empty colour sequence fails with the
empty-colours assertion (so it never yields an instance), and construction
with a non-empty colour sequence never fails on that ground. -/
theorem mk_empty_colours (target : Option (List StateSpecifier)) (fixed_phase : Bool)
    (start : Option (List StateSpecifier)) (msn : List Colour → ℕ)
    (colours : List Colour) :
    (mk [] target fixed_phase start msn = Except.error emptyColoursMsg) ∧
    (colours ≠ [] → mk colours target fixed_phase start msn ≠ Except.error emptyColoursMsg) := by
  constructor
  · simp [mk]
  · intro hne heq
    have hl : colours.length > 0 := List.length_pos.mpr hne
    rw [mk.eq_def] at heq
    rw [if_pos hl] at heq
    rcases h1 : listMax ((start.getD [{ motional := 0 }]).map StateSpecifier.motional)
      with e | m
    · have he := listMax_error _ e h1
      rw [he] at h1
      simp only [h1] at heq
      simp [maxEmptyMsg, emptyColoursMsg] at heq
    · simp only [h1] at heq
      rcases target with _ | tl
      · simp at heq
      · rcases h2 : listMax (tl.map StateSpecifier.motional) with e2 | m2
        · have he := listMax_error _ e2 h2
          rw [he] at h2
          simp only [h2] at heq
          simp [maxEmptyMsg, emptyColoursMsg] at heq
        · simp only [h2] at heq
          simp at heq

/-- Witness for `mk_empty_colours` at a concrete input. -/
theorem mk_empty_colours_witness :
    ([Colour.c] ≠ ([] : List Colour)) ∧
      mk [] none false none (fun _ => 2) = Except.error emptyColoursMsg ∧
      mk [Colour.c] none false none (fun _ => 2) ≠ Except.error emptyColoursMsg :=
  ⟨by decide,
    (mk_empty_colours none false none (fun _ => 2) [Colour.c]).1,
    (mk_empty_colours none false none (fun _ => 2) [Colour.c]).2 (by decide)⟩

/-- C9: a one-component target forces fixed-phase mode (`n_phases == 0`)
regardless of the `fixed_phase` argument, and in fixed-phase mode neither
`distance` nor `d_distance` ever fails with the missing-phases assertion when
the phases argument is omitted. -/
theorem one_component_target_fixed_phase :
    (∀ (colours : List Colour) (s0 : StateSpecifier) (fp : Bool)
        (start : Option (List StateSpecifier)) (msn : List Colour → ℕ) (res : MkResult),
      mk colours (some [s0]) fp start msn = Except.ok res → res.fixed_phase = true) ∧
    (∀ (d L : ℕ) (cfg : Cfg d L) (st : St d L) (angles : Option (List ℝ)),
      cfg.fixed_phase = true →
      (distance cfg st angles none).1 ≠ Except.error phasesRequiredMsg ∧
      (d_distance cfg st angles none).1 ≠ Except.error phasesRequiredMsg) := by
  constructor
  · intro colours s0 fp start msn res heq
    by_cases hl : colours.length > 0
    · rw [mk.eq_def] at heq
      rw [if_pos hl] at heq
      rcases h1 : listMax ((start.getD [{ motional := 0 }]).map StateSpecifier.motional)
        with e | m
      · rw [h1] at heq
        simp at heq
      · rw [h1] at heq
        simp [listMax] at heq
        rw [← heq]
    · rw [mk.eq_def] at heq
      rw [if_neg hl] at heq
      cases heq
  · intro d L cfg st angles hfix
    rcases h0 : st.targetVec with _ | t0
    · constructor <;> simp [distance, d_distance, h0] <;>
        simp [targetRequiredMsg, phasesRequiredMsg]
    · have hcond : (st.targetVec.isNone || cfg.fixed_phase ||
          (none : Option (List ℝ)).isSome) = true := by simp [hfix]
      rcases hca : calculateAll cfg st angles none with ⟨r, stF'⟩
      rcases calculateAll_classify cfg st angles none hcond with hok | ⟨e, herr, he⟩
      · rw [hca] at hok
        simp only at hok
        constructor <;> simp [distance, d_distance, h0, hca, hok, hfix]
      · rw [hca] at herr
        simp only at herr
        constructor <;>
          simp only [distance, d_distance, h0, Option.isSome_some, if_true, hca, herr,
            hfix, Bool.true_or] <;>
          intro hbad <;>
          rcases he with he | he | he <;> rw [he] at hbad <;>
          simp [anglesLenMsg, phasesLenMsg, noneTypeMsg, phasesRequiredMsg] at hbad

/-- Witness for `one_component_target_fixed_phase` at concrete inputs. -/
theorem one_component_target_fixed_phase_witness :
    (mk [Colour.c] (some [{ motional := 0 }]) false none (fun _ => 2) =
        Except.ok { ns := 2, len := 1, nPhases := some 0, fixed_phase := true } ∧
      cfgW.fixed_phase = true) ∧
      ({ ns := 2, len := 1, nPhases := some 0,
          fixed_phase := true : MkResult }.fixed_phase = true ∧
        (distance cfgW stW (some [0]) none).1 ≠ Except.error phasesRequiredMsg) :=
  ⟨⟨by simp [mk, listMax], rfl⟩,
    ⟨one_component_target_fixed_phase.1 [Colour.c] { motional := 0 } false none
        (fun _ => 2) _ (by simp [mk, listMax]),
      (one_component_target_fixed_phase.2 1 1 cfgW stW (some [0]) rfl).1⟩⟩

/-! ## The propagator as a matrix product -/

/-- `partials_ltr[j]` is the product of the first `j` operators in listed
order. -/
theorem partialsLtr_eq_prod (ops : Fin L → Mat d) :
    ∀ j, j ≤ L → partialsLtr ops j = ((List.ofFn ops).take j).prod := by
  intro j
  induction j with
  | zero => intro _; simp [partialsLtr]
  | succ i ih =>
    intro hle
    have hi : i < L := by omega
    have hlen : i < (List.ofFn ops).length := by
      simp only [List.length_ofFn]
      exact hi
    rw [partialsLtr, ih (by omega), ← List.take_concat_get' _ i hlen, List.prod_append,
      List.prod_singleton]
    congr 1
    simp [opNat, hi, List.getElem_ofFn]

/-- The propagator computed by `__update_propagator_and_derivatives` is the
full left-to-right product `Op[0] * Op[1] * ... * Op[L-1]`. -/
theorem propagator_eq_prod (ops : Fin L → Mat d) (hL : 0 < L) :
    partialsLtr ops (L - 1) * opNat ops (L - 1) = (List.ofFn ops).prod := by
  have h1 : L - 1 < L := by omega
  have hlen : L - 1 < (List.ofFn ops).length := by
    simp only [List.length_ofFn]
    exact h1
  have h2 : opNat ops (L - 1) = (List.ofFn ops)[L - 1] := by
    simp [opNat, h1, List.getElem_ofFn]
  have key : (List.take (L - 1) (List.ofFn ops)).prod * (List.ofFn ops)[L - 1] =
      ((List.take (L - 1) (List.ofFn ops)) ++ [(List.ofFn ops)[L - 1]]).prod := by
    rw [List.prod_append, List.prod_singleton]
  rw [partialsLtr_eq_prod ops (L - 1) (by omega), h2, key, List.take_concat_get' _ _ hlen]
  have h3 : L - 1 + 1 = L := by omega
  rw [h3, List.take_of_length_le (by simp)]

/-- The state column of `trace` after all `L` pulses equals the full product
applied to the start state: the last-listed pulse acts first. -/
theorem traceStates_eq_prod (ops : Fin L → Mat d) (s : Vec d) :
    ∀ j, j ≤ L → traceStates ops s j = ((List.ofFn ops).drop (L - j)).prod.mulVec s := by
  intro j
  induction j with
  | zero =>
    intro _
    have hd : (List.ofFn ops).drop L = [] := by
      apply List.drop_eq_nil_of_le
      simp
    simp [traceStates, hd, Matrix.one_mulVec]
  | succ i ih =>
    intro hle
    have hi : i < L := by omega
    have hidx : L - 1 - i < (List.ofFn ops).length := by
      simp only [List.length_ofFn]
      omega
    have h2 : L - (i + 1) = L - 1 - i := by omega
    have h3 : L - 1 - i + 1 = L - i := by omega
    have h4 : L - 1 - i < L := by omega
    rw [traceStates, ih (by omega), h2, List.drop_eq_getElem_cons hidx, List.prod_cons, h3,
      Matrix.mulVec_mulVec]
    congr 2
    simp [opNat, h4, List.getElem_ofFn]

/-! ## Claim theorems: propagator composition order -/

/-- C1 (amended): the propagator returned by `U` is the left-to-right product
`Op[0] * Op[1] * ... * Op[L-1]` of the pulse operators at the supplied
angles: the first-listed pulse is the leftmost matrix factor, hence applied
last to the state, and the last-listed pulse is the rightmost factor, applied
first — consistent with `trace`, which applies `Op[L-1]` to the start state
first. -/
theorem U_left_to_right_product (cfg : Cfg d L) (st : St d L) (a : List ℝ)
    (hL : 0 < L) (h : a.length = L) (hnew : st.angles ≠ some a) :
    (U cfg st (some a)).1 =
      Except.ok (List.ofFn fun i => cfg.op i (anglesFun a h i)).prod ∧
    traceStates (fun i => cfg.op i (anglesFun a h i)) cfg.start L =
      (List.ofFn fun i => cfg.op i (anglesFun a h i)).prod.mulVec cfg.start := by
  constructor
  · have e1 := updateAngles_update st a h hnew
    have hU1 : (U cfg st (some a)).1 = Except.ok
        (updatePropagatorAndDerivatives cfg
          { st with angles := some a, opAngle := anglesFun a h }).u := by
      simp [U, calculatePropagator, e1]
    rw [hU1, updateProp_u]
    have hops : opsOf cfg { st with angles := some a, opAngle := anglesFun a h } =
        fun i => cfg.op i (anglesFun a h i) := rfl
    rw [hops, propagator_eq_prod _ hL]
  · have := traceStates_eq_prod (fun i => cfg.op i (anglesFun a h i)) cfg.start L (le_refl L)
    simpa using this

/-- Witness for `U_left_to_right_product` at a concrete input. -/
theorem U_left_to_right_product_witness :
    (0 < 1 ∧ [(0 : ℝ)].length = 1 ∧ stW.angles ≠ some [0]) ∧
      (U cfgW stW (some [0])).1 =
        Except.ok (List.ofFn fun i => cfgW.op i (anglesFun [0] rfl i)).prod :=
  ⟨⟨by decide, rfl, by simp [stW, initSt]⟩,
    (U_left_to_right_product cfgW stW [0] (by decide) rfl (by simp [stW, initSt])).1⟩

/-- First test operator for the ordering counterexample. -/
def opA : Mat 2 := Matrix.of ![![0, 1], ![1, 0]]

/-- Second test operator for the ordering counterexample. -/
def opB : Mat 2 := Matrix.of ![![1, 0], ![0, 2]]

/-- A two-pulse configuration whose two operators do not commute. -/
def cfgO : Cfg 2 2 :=
  { fixed_phase := true
    targetLen := none
    op := fun i _ => if i = 0 then opA else opB
    d_op := fun _ _ => 0
    start := fun _ => 1
    buildTarget := fun _ _ => 1
    targetIdx := fun _ => 0 }

/-- The freshly-constructed state paired with `cfgO`. -/
def stO : St 2 2 :=
  initSt none (fun _ => 0) 1 (fun _ => 0) (fun _ => 0) []

/-- C1 counterexample: with pulse operators `Op[0] = opA` and `Op[1] = opB`,
the propagator returned by `U` is `opA * opB = Op[0] * Op[1]`, and this
differs from the value `Op[L-1] * ... * Op[0] = opB * opA` required by the
claim, so the first-listed pulse is not the rightmost factor. -/
theorem U_not_right_to_left_product :
    (U cfgO stO (some [0, 0])).1 = Except.ok (opA * opB) ∧
      Except.ok (opA * opB) ≠ (Except.ok (opB * opA) : Except String (Mat 2)) := by
  have hnew : stO.angles ≠ some [0, 0] := by simp [stO, initSt]
  constructor
  · have e1 := updateAngles_update stO [0, 0] rfl hnew
    have hU1 : (U cfgO stO (some [0, 0])).1 = Except.ok
        (updatePropagatorAndDerivatives cfgO
          { stO with angles := some [0, 0], opAngle := anglesFun [0, 0] rfl }).u := by
      simp [U, calculatePropagator, e1]
    rw [hU1, updateProp_u, propagator_eq_prod _ (by decide)]
    have hlist : (List.ofFn (opsOf cfgO
        { stO with angles := some [0, 0], opAngle := anglesFun [0, 0] rfl })) = [opA, opB] := by
      simp [opsOf, cfgO, List.ofFn_succ]
    rw [hlist]
    simp
  · intro hcontra
    have hmat : opA * opB = opB * opA := by
      have := (Except.ok.injEq (opA * opB) (opB * opA)).mp hcontra
      exact this
    have h01 : (opA * opB) 0 1 = (opB * opA) 0 1 := by rw [hmat]
    simp [opA, opB, Matrix.mul_apply, Fin.sum_univ_two] at h01
    try norm_num at h01

/-! ## Phase-vector length handling -/

/-- A supplied phase vector of length `k - 1` (the documented length) passes
the length assertion and is stored as given (or is a no-op when equal to the
cached vector). -/
theorem phasesStep_accept_short (cfg : Cfg d L) (old : Option (List ℝ)) (p : List ℝ)
    (k : ℕ) (hfix : cfg.fixed_phase = false) (hk : cfg.targetLen = some k)
    (hk1 : 1 ≤ k) (hlen : p.length = k - 1) (hc : old ≠ some p) :
    phasesStep cfg old (some p) = Except.ok (some p) := by
  have hb : (0 : ℤ) ≤ (k : ℤ) - (p.length : ℤ) ∧ (k : ℤ) - (p.length : ℤ) ≤ 1 := by omega
  have he : (p.length : ℤ) = (k : ℤ) - 1 := by omega
  simp [phasesStep, hfix, hc, hk, hb, he]

/-- A supplied phase vector of full target length `k` passes the length
assertion; the first entry is subtracted from the remaining ones and then
discarded. -/
theorem phasesStep_accept_full (cfg : Cfg d L) (old : Option (List ℝ)) (p : List ℝ)
    (k : ℕ) (hfix : cfg.fixed_phase = false) (hk : cfg.targetLen = some k)
    (hk1 : 1 ≤ k) (hlen : p.length = k) (hc : old ≠ some p) :
    phasesStep cfg old (some p) =
      Except.ok (some ((p.drop 1).map fun x => x - p.headI)) := by
  have hb : (0 : ℤ) ≤ (k : ℤ) - (p.length : ℤ) ∧ (k : ℤ) - (p.length : ℤ) ≤ 1 := by omega
  have hne : ¬ ((p.length : ℤ) = (k : ℤ) - 1) := by omega
  simp [phasesStep, hfix, hc, hk, hb, hne]

/-- A supplied phase vector of any other length fails the length assertion. -/
theorem phasesStep_reject (cfg : Cfg d L) (old : Option (List ℝ)) (p : List ℝ)
    (k : ℕ) (hfix : cfg.fixed_phase = false) (hk : cfg.targetLen = some k)
    (hlp : p.length ≠ k) (hlp2 : p.length ≠ k - 1) (hc : old ≠ some p) :
    phasesStep cfg old (some p) = Except.error phasesLenMsg := by
  simp [phasesStep, hfix, hc, hk]
  omega

/-- If the phase decision succeeds, `__calculate_all` succeeds. -/
theorem calculateAll_ok_of_phasesStep_ok (cfg : Cfg d L) (st : St d L) (a : List ℝ)
    (p : Option (List ℝ)) (ha : a.length = L)
    (hcond : (st.targetVec.isNone || cfg.fixed_phase || p.isSome) = true)
    (np : Option (List ℝ)) (hstep : phasesStep cfg st.phases p = Except.ok np) :
    (calculateAll cfg st (some a) p).1 = Except.ok () := by
  rcases np with _ | ps <;>
  rcases htv : st.targetVec with _ | t <;>
  by_cases hca : st.angles = some a
  all_goals rw [htv] at hcond
  all_goals simp only [Option.isNone_some, Option.isNone_none, Bool.true_or,
    Bool.false_or] at hcond
  all_goals
    first
      | (have e1 := updateAngles_cached st a ha hca
         simp [calculateAll, updatePhasesIfRequired, hstep, hcond, htv, e1])
      | (have e1 := updateAngles_update st a ha hca
         simp [calculateAll, updatePhasesIfRequired, hstep, hcond, htv, e1])

/-- If the phase decision fails, `__calculate_all` propagates exactly that
error. -/
theorem calculateAll_error_of_phasesStep_error (cfg : Cfg d L) (st : St d L)
    (a : List ℝ) (p : Option (List ℝ)) (ha : a.length = L)
    (hcond : (st.targetVec.isNone || cfg.fixed_phase || p.isSome) = true)
    (e : String) (hstep : phasesStep cfg st.phases p = Except.error e) :
    (calculateAll cfg st (some a) p).1 = Except.error e := by
  rcases htv : st.targetVec with _ | t <;>
  by_cases hca : st.angles = some a
  all_goals rw [htv] at hcond
  all_goals simp only [Option.isNone_some, Option.isNone_none, Bool.true_or,
    Bool.false_or] at hcond
  all_goals
    first
      | (have e1 := updateAngles_cached st a ha hca
         simp [calculateAll, updatePhasesIfRequired, hstep, hcond, htv, e1])
      | (have e1 := updateAngles_update st a ha hca
         simp [calculateAll, updatePhasesIfRequired, hstep, hcond, htv, e1])

/-- If the phase decision stores a new phase vector, that vector is the
`phases` field of the state after `__calculate_all`. -/
theorem calculateAll_phases_of_step_some (cfg : Cfg d L) (st : St d L) (a : List ℝ)
    (p : Option (List ℝ)) (ha : a.length = L)
    (hcond : (st.targetVec.isNone || cfg.fixed_phase || p.isSome) = true)
    (ps : List ℝ) (hstep : phasesStep cfg st.phases p = Except.ok (some ps)) :
    ((calculateAll cfg st (some a) p).2).phases = some ps := by
  rcases htv : st.targetVec with _ | t <;>
  by_cases hca : st.angles = some a
  all_goals rw [htv] at hcond
  all_goals simp only [Option.isNone_some, Option.isNone_none, Bool.true_or,
    Bool.false_or] at hcond
  all_goals
    first
      | (have e1 := updateAngles_cached st a ha hca
         simp [calculateAll, updatePhasesIfRequired, hstep, hcond, htv, e1])
      | (have e1 := updateAngles_update st a ha hca
         simp [calculateAll, updatePhasesIfRequired, hstep, hcond, htv, e1])

/-- `distance` forwards the outcome of `__calculate_all` when a target is
configured: on success it returns the cached distance of the new state, on
failure it propagates the error. -/
theorem distance_calculateAll (cfg : Cfg d L) (st : St d L)
    (angles phases : Option (List ℝ)) (t0 : Vec d) (ht : st.targetVec = some t0) :
    ((calculateAll cfg st angles phases).1 = Except.ok () →
      (distance cfg st angles phases).1 =
        Except.ok ((calculateAll cfg st angles phases).2).dist ∧
      (distance cfg st angles phases).2 = (calculateAll cfg st angles phases).2) ∧
    (∀ e, (calculateAll cfg st angles phases).1 = Except.error e →
      (distance cfg st angles phases).1 = Except.error e) := by
  rcases hca : calculateAll cfg st angles phases with ⟨r, stF2⟩
  constructor
  · intro hok
    simp only at hok
    simp [distance, ht, hca, hok]
  · intro e he
    simp only at he
    simp [distance, ht, hca, he]

/-- `d_distance` in free-phase mode with a supplied phase vector forwards the
outcome of `__calculate_all` in the same way, returning the pair of gradient
buffers on success. -/
theorem d_distance_calculateAll (cfg : Cfg d L) (st : St d L)
    (angles : Option (List ℝ)) (p : List ℝ) (t0 : Vec d)
    (ht : st.targetVec = some t0) (hfix : cfg.fixed_phase = false) :
    ((calculateAll cfg st angles (some p)).1 = Except.ok () →
      (d_distance cfg st angles (some p)).1 =
        Except.ok (((calculateAll cfg st angles (some p)).2).d_dist_angles,
          some ((calculateAll cfg st angles (some p)).2).d_dist_phases)) ∧
    (∀ e, (calculateAll cfg st angles (some p)).1 = Except.error e →
      (d_distance cfg st angles (some p)).1 = Except.error e) := by
  rcases hca : calculateAll cfg st angles (some p) with ⟨r, stF2⟩
  constructor
  · intro hok
    simp only at hok
    simp [d_distance, ht, hfix, hca, hok]
  · intro e he
    simp only at he
    simp [d_distance, ht, hfix, hca, he]

/-- C10: in free-phase mode with a target of `k ≥ 2` components, `distance`
and `d_distance` accept phase vectors of the documented length `k - 1` and
also of the full length `k`; in the latter case the first phase is subtracted
from each of the remaining `k - 1` entries and then discarded (re-pinning
component 0 to phase zero) before being stored; any other phase-vector length
fails with the length-mismatch assertion. -/
theorem phases_length_handling (cfg : Cfg d L) (st : St d L) (a p : List ℝ) (k : ℕ)
    (t0 : Vec d) (hfix : cfg.fixed_phase = false) (hk : cfg.targetLen = some k)
    (hk2 : 2 ≤ k) (ht : st.targetVec = some t0) (ha : a.length = L)
    (hinv : st.phases = none ∨ ∃ q, st.phases = some q ∧ q.length = k - 1) :
    (p.length = k - 1 →
      (∃ v, (distance cfg st (some a) (some p)).1 = Except.ok v) ∧
      (∃ w, (d_distance cfg st (some a) (some p)).1 = Except.ok w)) ∧
    (p.length = k →
      (∃ v, (distance cfg st (some a) (some p)).1 = Except.ok v) ∧
      (∃ w, (d_distance cfg st (some a) (some p)).1 = Except.ok w) ∧
      ((distance cfg st (some a) (some p)).2).phases =
        some ((p.drop 1).map fun x => x - p.headI)) ∧
    (p.length ≠ k → p.length ≠ k - 1 →
      (distance cfg st (some a) (some p)).1 = Except.error phasesLenMsg ∧
      (d_distance cfg st (some a) (some p)).1 = Except.error phasesLenMsg) := by
  have hcond : (st.targetVec.isNone || cfg.fixed_phase ||
      (some p : Option (List ℝ)).isSome) = true := by simp [ht]
  refine ⟨?_, ?_, ?_⟩
  · intro hlen
    have hstep : ∃ np, phasesStep cfg st.phases (some p) = Except.ok np := by
      by_cases hc : st.phases = some p
      · exact ⟨none, by simp [phasesStep, hfix, hc]⟩
      · exact ⟨some p, phasesStep_accept_short cfg st.phases p k hfix hk (by omega) hlen hc⟩
    rcases hstep with ⟨np, hstep⟩
    have hok := calculateAll_ok_of_phasesStep_ok cfg st a (some p) ha hcond np hstep
    exact ⟨⟨_, ((distance_calculateAll cfg st (some a) (some p) t0 ht).1 hok).1⟩,
      ⟨_, (d_distance_calculateAll cfg st (some a) p t0 ht hfix).1 hok⟩⟩
  · intro hlen
    have hc : st.phases ≠ some p := by
      rcases hinv with h | ⟨q, hq, hql⟩
      · rw [h]
        exact fun hcon => Option.noConfusion hcon
      · rw [hq]
        intro hcon
        have hqp : q = p := by injection hcon
        rw [hqp] at hql
        omega
    have hstep := phasesStep_accept_full cfg st.phases p k hfix hk (by omega) hlen hc
    have hok := calculateAll_ok_of_phasesStep_ok cfg st a (some p) ha hcond _ hstep
    refine ⟨⟨_, ((distance_calculateAll cfg st (some a) (some p) t0 ht).1 hok).1⟩,
      ⟨_, (d_distance_calculateAll cfg st (some a) p t0 ht hfix).1 hok⟩, ?_⟩
    have hph := calculateAll_phases_of_step_some cfg st a (some p) ha hcond _ hstep
    rw [((distance_calculateAll cfg st (some a) (some p) t0 ht).1 hok).2]
    exact hph
  · intro hlp hlp2
    have hc : st.phases ≠ some p := by
      rcases hinv with h | ⟨q, hq, hql⟩
      · rw [h]
        exact fun hcon => Option.noConfusion hcon
      · rw [hq]
        intro hcon
        have hqp : q = p := by injection hcon
        rw [hqp] at hql
        omega
    have hstep := phasesStep_reject cfg st.phases p k hfix hk hlp hlp2 hc
    have herr := calculateAll_error_of_phasesStep_error cfg st a (some p) ha hcond _ hstep
    exact ⟨(distance_calculateAll cfg st (some a) (some p) t0 ht).2 _ herr,
      (d_distance_calculateAll cfg st (some a) p t0 ht hfix).2 _ herr⟩

/-- Witness for `phases_length_handling` at a concrete input. -/
theorem phases_length_handling_witness :
    (cfgF.fixed_phase = false ∧ cfgF.targetLen = some 2 ∧
        stF.targetVec = some (fun _ => 1) ∧ [(0 : ℝ)].length = 1 ∧
        ([(1 : ℝ), 2] : List ℝ).length = 2) ∧
      (∃ v, (distance cfgF stF (some [0]) (some [1, 2])).1 = Except.ok v) ∧
      ((distance cfgF stF (some [0]) (some [1, 2])).2).phases =
        some (([(1 : ℝ), 2].drop 1).map fun x => x - [(1 : ℝ), 2].headI) := by
  refine ⟨⟨rfl, rfl, rfl, rfl, rfl⟩, ?_⟩
  have h := (phases_length_handling cfgF stF [0] [1, 2] 2 (fun _ => 1) rfl rfl
    (by decide) rfl rfl (Or.inl rfl)).2.1 rfl
  exact ⟨h.1, h.2.2⟩

/-! ## The distance formula: bounds and the equality case -/

theorem cinner_eq_dot (x y : Vec d) : cinner x y = Matrix.dotProduct (star x) y := by
  rw [cinner, Matrix.dotProduct]
  refine Finset.sum_congr rfl fun i _ => ?_
  rw [Pi.star_apply, starRingEnd_apply]

theorem cinner_mulVec_self (M : Mat d) (s : Vec d) (hM : M.conjTranspose * M = 1) :
    cinner (M.mulVec s) (M.mulVec s) = cinner s s := by
  rw [cinner_eq_dot, cinner_eq_dot, Matrix.star_mulVec, Matrix.dotProduct_mulVec,
    Matrix.vecMul_vecMul, hM, Matrix.vecMul_one]

theorem cinner_eq_inner (x y : Vec d) :
    (inner ((WithLp.equiv 2 (Fin d → ℂ)).symm x) ((WithLp.equiv 2 (Fin d → ℂ)).symm y) : ℂ) =
      cinner x y := by
  rw [PiLp.inner_apply, cinner]
  refine Finset.sum_congr rfl fun i _ => ?_
  rw [RCLike.inner_apply, WithLp.equiv_symm_pi_apply, WithLp.equiv_symm_pi_apply]

theorem norm_eq_one_of_cinner (v : Vec d) (hv : cinner v v = 1) :
    ‖(WithLp.equiv 2 (Fin d → ℂ)).symm v‖ = 1 := by
  have h1 : (inner ((WithLp.equiv 2 (Fin d → ℂ)).symm v)
      ((WithLp.equiv 2 (Fin d → ℂ)).symm v) : ℂ) = 1 := by
    rw [cinner_eq_inner]
    exact hv
  have h2 := @inner_self_eq_norm_sq ℂ _ _ _ _ ((WithLp.equiv 2 (Fin d → ℂ)).symm v)
  rw [h1] at h2
  simp only [RCLike.one_re] at h2
  have h3 : (‖(WithLp.equiv 2 (Fin d → ℂ)).symm v‖ - 1) *
      (‖(WithLp.equiv 2 (Fin d → ℂ)).symm v‖ + 1) = 0 := by nlinarith
  rcases mul_eq_zero.mp h3 with h4 | h4
  · linarith
  · nlinarith [norm_nonneg ((WithLp.equiv 2 (Fin d → ℂ)).symm v)]

theorem dist_formula_core (t s : Vec d) (M : Mat d)
    (ht : cinner t t = 1) (hs : cinner s s = 1) (hM : M.conjTranspose * M = 1) :
    0 ≤ 1 - ((cinner t (M.mulVec s)) * (starRingEnd ℂ) (cinner t (M.mulVec s))).re ∧
    1 - ((cinner t (M.mulVec s)) * (starRingEnd ℂ) (cinner t (M.mulVec s))).re ≤ 1 ∧
    (1 - ((cinner t (M.mulVec s)) * (starRingEnd ℂ) (cinner t (M.mulVec s))).re = 0 ↔
      ∃ c : ℂ, Complex.abs c = 1 ∧ M.mulVec s = c • t) := by
  have hmc : ∀ z : ℂ, (z * (starRingEnd ℂ) z).re = Complex.normSq z := by
    intro z
    rw [Complex.mul_conj]
    exact Complex.ofReal_re _
  simp only [hmc]
  set x : EuclideanSpace ℂ (Fin d) := (WithLp.equiv 2 (Fin d → ℂ)).symm t with hxdef
  set y : EuclideanSpace ℂ (Fin d) := (WithLp.equiv 2 (Fin d → ℂ)).symm (M.mulVec s) with hydef
  have hxy : (inner x y : ℂ) = cinner t (M.mulVec s) := cinner_eq_inner t (M.mulVec s)
  have hxnorm : ‖x‖ = 1 := norm_eq_one_of_cinner t ht
  have hynorm : ‖y‖ = 1 := by
    have h5 := cinner_mulVec_self M s hM
    exact norm_eq_one_of_cinner (M.mulVec s) (h5.trans hs)
  have hcs : ‖(inner x y : ℂ)‖ ≤ ‖x‖ * ‖y‖ := norm_inner_le_norm x y
  rw [hxnorm, hynorm, mul_one] at hcs
  have htusn : Complex.normSq (cinner t (M.mulVec s)) = ‖(inner x y : ℂ)‖ ^ 2 := by
    rw [hxy, Complex.normSq_eq_abs, Complex.norm_eq_abs]
  have hb1 : Complex.normSq (cinner t (M.mulVec s)) ≤ 1 := by
    rw [htusn]
    nlinarith [norm_nonneg (inner x y : ℂ)]
  have hb0 : 0 ≤ Complex.normSq (cinner t (M.mulVec s)) := Complex.normSq_nonneg _
  refine ⟨by linarith, by linarith, ?_⟩
  constructor
  · intro h0
    have hnorm1 : ‖(inner x y : ℂ)‖ = 1 := by
      have h1 : Complex.normSq (cinner t (M.mulVec s)) = 1 := by linarith
      rw [htusn] at h1
      nlinarith [norm_nonneg (inner x y : ℂ)]
    have hx0 : x ≠ 0 := by
      intro hc
      rw [hc] at hxnorm
      simp at hxnorm
    have hy0 : y ≠ 0 := by
      intro hc
      rw [hc] at hynorm
      simp at hynorm
    have h6 : ‖(inner x y : ℂ)‖ = ‖x‖ * ‖y‖ := by
      rw [hxnorm, hynorm, hnorm1, mul_one]
    rcases (norm_inner_eq_norm_iff hx0 hy0).mp h6 with ⟨r, hr0, hyr⟩
    refine ⟨r, ?_, ?_⟩
    · have h7 : ‖y‖ = ‖r‖ * ‖x‖ := by rw [hyr, norm_smul]
      rw [hxnorm, hynorm] at h7
      simp only [mul_one] at h7
      rw [← Complex.norm_eq_abs, ← h7]
    · have happ := congrArg (WithLp.equiv 2 (Fin d → ℂ)) hyr
      simpa [hxdef, hydef] using happ
  · rintro ⟨c, hc1, hcs2⟩
    have hyx : y = c • x := by
      rw [hydef, hxdef, hcs2]
      rfl
    have htus : cinner t (M.mulVec s) = c := by
      rw [← hxy, hyx, inner_smul_right]
      rw [show (inner x x : ℂ) = cinner t t from cinner_eq_inner t t, ht, mul_one]
    rw [htus]
    have h8 : Complex.normSq c = 1 := by
      rw [Complex.normSq_eq_abs, hc1]
      norm_num
    rw [h8]
    ring


/-- A product of unitary matrices is unitary. -/
theorem prod_unitary (l : List (Mat d)) (h : ∀ M ∈ l, M.conjTranspose * M = 1) :
    (l.prod).conjTranspose * l.prod = 1 := by
  induction l with
  | nil => simp
  | cons a tl ih =>
    have ha := h a (List.mem_cons_self a tl)
    have htl := ih fun M hM => h M (List.mem_cons_of_mem a hM)
    rw [List.prod_cons, Matrix.conjTranspose_mul, mul_assoc, ← mul_assoc a.conjTranspose,
      ha, one_mul, htl]

/-- During a `__calculate_all` run whose angle vector differs from the cached
one, the propagator is recomputed from the supplied angles and the distance
cache is set to `1 - |⟨target|U|start⟩|²` for the effective target vector
(the cached target, or the rebuilt one when the phases update too). -/
theorem calculateAll_recompute_dist (cfg : Cfg d L) (st : St d L) (a : List ℝ)
    (p : Option (List ℝ)) (t0 : Vec d) (np : Option (List ℝ))
    (ha : a.length = L) (hnew : st.angles ≠ some a) (ht : st.targetVec = some t0)
    (hstep : phasesStep cfg st.phases p = Except.ok np)
    (hcond : (st.targetVec.isNone || cfg.fixed_phase || p.isSome) = true) :
    (calculateAll cfg st (some a) p).1 = Except.ok () ∧
    ((calculateAll cfg st (some a) p).2).u =
      partialsLtr (fun i => cfg.op i (anglesFun a ha i)) (L - 1) *
        opNat (fun i => cfg.op i (anglesFun a ha i)) (L - 1) ∧
    ((calculateAll cfg st (some a) p).2).dist =
      (((1 : ℝ) - (inner_product (np.elim t0 cfg.buildTarget)
          (partialsLtr (fun i => cfg.op i (anglesFun a ha i)) (L - 1) *
            opNat (fun i => cfg.op i (anglesFun a ha i)) (L - 1)) cfg.start *
        (starRingEnd ℂ) (inner_product (np.elim t0 cfg.buildTarget)
          (partialsLtr (fun i => cfg.op i (anglesFun a ha i)) (L - 1) *
            opNat (fun i => cfg.op i (anglesFun a ha i)) (L - 1)) cfg.start)).re : ℝ) :
        EReal) ∧
    ((calculateAll cfg st (some a) p).2).targetVec =
      some (np.elim t0 cfg.buildTarget) := by
  have e1 := updateAngles_update st a ha hnew
  have hcond2 : cfg.fixed_phase = true ∨ p.isSome = true := by
    rw [ht] at hcond
    simpa using hcond
  rcases np with _ | ps
  · refine ⟨?_, ?_, ?_, ?_⟩ <;>
      simp [calculateAll, updatePhasesIfRequired, hstep, hcond2, ht, e1,
        updatePropagatorAndDerivatives, updateDistance, updateDistanceAngleDerivatives,
        opsOf, inner_product, Option.elim] <;> try rfl
  · refine ⟨?_, ?_, ?_, ?_⟩ <;>
      simp [calculateAll, updatePhasesIfRequired, hstep, hcond2, ht, e1,
        updatePropagatorAndDerivatives, updateDistance, updateDistanceAngleDerivatives,
        updateDistancePhaseDerivatives, opsOf, inner_product, Option.elim] <;> try rfl

/-! ## Claim theorems: distance bounds -/

/-- C2 counterexample: on an instance satisfying every hypothesis of the
claim (unitary pulse operator, unit-normalised start and target), a
`distance` call made after a `U` call with the same angle vector returns the
sentinel `+∞`, which does not lie in `[0, 1]`. -/
theorem distance_not_always_in_range :
    ((cfgW.op 0 0).conjTranspose * cfgW.op 0 0 = 1 ∧
      cinner cfgW.start cfgW.start = 1 ∧
      (∀ t0 : Vec 1, stW.targetVec = some t0 → cinner t0 t0 = 1) ∧
      cfgW.fixed_phase = true) ∧
    (distance cfgW (U cfgW stW (some [0])).2 (some [0]) none).1 =
      Except.ok (⊤ : EReal) ∧
    ¬ ((⊤ : EReal) ≤ ((1 : ℝ) : EReal)) := by
  refine ⟨⟨by simp [cfgW], ?_, ?_, rfl⟩, ?_, ?_⟩
  · simp [cinner, cfgW]
  · intro t0 h0
    have ht0 : t0 = fun _ => 1 := by
      have := (Option.some.injEq _ _).mp h0.symm
      exact this
    rw [ht0]
    simp [cinner]
  · have hc : stW.angles ≠ some [0] := by simp [stW, initSt]
    have e1 := updateAngles_update stW [0] rfl hc
    have hU : (U cfgW stW (some [0])).2 =
        updatePropagatorAndDerivatives cfgW
          { stW with angles := some [0], opAngle := anglesFun [0] rfl } := by
      simp [U, calculatePropagator, e1]
    rw [hU]
    have hnoop := distance_noop cfgW
      (updatePropagatorAndDerivatives cfgW
        { stW with angles := some [0], opAngle := anglesFun [0] rfl })
      (fun _ => 1) [0] rfl rfl rfl rfl
    rw [hnoop]
    rfl
  · intro hle
    have h1 : ((1 : ℝ) : EReal) = ⊤ := top_le_iff.mp hle
    exact EReal.coe_ne_top 1 h1

/-- C2 (amended): whenever a `distance` call actually recomputes the distance
— in particular whenever the supplied angle vector differs from the cached
one, e.g. on a freshly constructed instance — and assuming the pulse
operators at the supplied angles are unitary and the start vector and the
effective target vector are unit-normalised, the value returned is a real
number in `[0, 1]`, and it is `0` exactly when the propagator applied to the
start vector equals the target vector up to a global unit-modulus phase
factor. -/
theorem distance_bounds_when_recomputed (cfg : Cfg d L) (st : St d L) (a : List ℝ)
    (p : Option (List ℝ)) (t0 : Vec d) (np : Option (List ℝ))
    (ha : a.length = L) (hnew : st.angles ≠ some a) (ht : st.targetVec = some t0)
    (hassert : cfg.fixed_phase = true ∨ p.isSome = true)
    (hstep : phasesStep cfg st.phases p = Except.ok np)
    (htunit : cinner (np.elim t0 cfg.buildTarget) (np.elim t0 cfg.buildTarget) = 1)
    (hsunit : cinner cfg.start cfg.start = 1)
    (hL : 0 < L)
    (huni : ∀ i : Fin L,
      (cfg.op i (anglesFun a ha i)).conjTranspose * cfg.op i (anglesFun a ha i) = 1) :
    ∃ r : ℝ, (distance cfg st (some a) p).1 = Except.ok ((r : ℝ) : EReal) ∧
      0 ≤ r ∧ r ≤ 1 ∧
      (r = 0 ↔ ∃ c : ℂ, Complex.abs c = 1 ∧
        ((distance cfg st (some a) p).2).u.mulVec cfg.start =
          c • (np.elim t0 cfg.buildTarget)) := by
  have hcond : (st.targetVec.isNone || cfg.fixed_phase || p.isSome) = true := by
    rcases hassert with h1 | h1 <;> simp [h1]
  obtain ⟨hok, hu, hdist, _⟩ :=
    calculateAll_recompute_dist cfg st a p t0 np ha hnew ht hstep hcond
  have hglue := (distance_calculateAll cfg st (some a) p t0 ht).1 hok
  have hUU : ((distance cfg st (some a) p).2).u =
      partialsLtr (fun i => cfg.op i (anglesFun a ha i)) (L - 1) *
        opNat (fun i => cfg.op i (anglesFun a ha i)) (L - 1) := by
    rw [hglue.2, hu]
  have hprod := propagator_eq_prod (fun i => cfg.op i (anglesFun a ha i)) hL
  have hUunitary : (((distance cfg st (some a) p).2).u).conjTranspose *
      ((distance cfg st (some a) p).2).u = 1 := by
    rw [hUU, hprod]
    apply prod_unitary
    intro M hM
    rcases Set.mem_range.mp ((List.mem_ofFn _ _).mp hM) with ⟨i, rfl⟩
    exact huni i
  have hcore := dist_formula_core (np.elim t0 cfg.buildTarget) cfg.start
    ((distance cfg st (some a) p).2).u htunit hsunit hUunitary
  refine ⟨1 - ((cinner (np.elim t0 cfg.buildTarget)
      (((distance cfg st (some a) p).2).u.mulVec cfg.start)) *
      (starRingEnd ℂ) (cinner (np.elim t0 cfg.buildTarget)
      (((distance cfg st (some a) p).2).u.mulVec cfg.start))).re, ?_, hcore.1, hcore.2.1,
    hcore.2.2⟩
  rw [hglue.1, hdist]
  rw [hUU]
  rfl

/-- Witness for `distance_bounds_when_recomputed` at a concrete input. -/
theorem distance_bounds_when_recomputed_witness :
    ([(0 : ℝ)].length = 1 ∧ stW.angles ≠ some [0] ∧
        stW.targetVec = some (fun _ => 1) ∧
        phasesStep cfgW stW.phases none = Except.ok none ∧
        cinner ((none : Option (List ℝ)).elim (fun _ => 1) cfgW.buildTarget)
          ((none : Option (List ℝ)).elim (fun _ => 1) cfgW.buildTarget) = 1 ∧
        cinner cfgW.start cfgW.start = 1) ∧
      ∃ r : ℝ, (distance cfgW stW (some [0]) none).1 = Except.ok ((r : ℝ) : EReal) ∧
        0 ≤ r ∧ r ≤ 1 ∧
        (r = 0 ↔ ∃ c : ℂ, Complex.abs c = 1 ∧
          ((distance cfgW stW (some [0]) none).2).u.mulVec cfgW.start =
            c • ((none : Option (List ℝ)).elim (fun _ => 1) cfgW.buildTarget)) := by
  refine ⟨⟨rfl, by simp [stW, initSt], rfl, by simp [phasesStep, cfgW], ?_, ?_⟩, ?_⟩
  · simp [cinner, Option.elim]
  · simp [cinner, cfgW]
  · exact distance_bounds_when_recomputed cfgW stW [0] none (fun _ => 1) none rfl
      (by simp [stW, initSt]) rfl (Or.inl rfl) (by simp [phasesStep, cfgW])
      (by simp [cinner, Option.elim]) (by simp [cinner, cfgW]) (by decide)
      (fun i => by simp [cfgW])

end IonSuperpositions
